import Mathlib

/-!
Shallow embedding of wormpy/locomotion_bends.py (LocomotionCrawlingBends and
LocomotionForagingBends).  Floating-point NaN is modelled by `none` in
`Option ℚ`; arithmetic and comparisons on `Option ℚ` propagate `none`
exactly the way IEEE NaN propagates through numpy operations.  Python
exceptions (IndexError) are modelled by an `Option` result at the level of
the function that would raise.
-/

/-- Mirrors np.sign on a rational: 1, -1 or 0. -/
def npSign (q : ℚ) : ℤ := if 0 < q then 1 else if q < 0 then -1 else 0

/-- Mirrors np.sign on a possibly-NaN value: np.sign(NaN) = NaN. -/
def osign (o : Option ℚ) : Option ℤ := o.map npSign

/-- Mirrors numpy elementwise != on possibly-NaN values: NaN != x is True,
including NaN != NaN. -/
def neqO : Option ℤ → Option ℤ → Bool
  | some x, some y => decide (x ≠ y)
  | _, _ => true

/-- Mirrors a float strict greater-than: any comparison involving NaN is False. -/
def ogt : Option ℚ → Option ℚ → Bool
  | some x, some y => decide (y < x)
  | _, _ => false

/-- Mirrors a float strict less-than: any comparison involving NaN is False. -/
def olt : Option ℚ → Option ℚ → Bool
  | some x, some y => decide (x < y)
  | _, _ => false

/-- NaN-propagating addition. -/
def oadd : Option ℚ → Option ℚ → Option ℚ
  | some x, some y => some (x + y)
  | _, _ => none

/-- NaN-propagating subtraction. -/
def osub : Option ℚ → Option ℚ → Option ℚ
  | some x, some y => some (x - y)
  | _, _ => none

/-- Python max over an iterable: seed with the first element, replace the
accumulator whenever the next element compares strictly greater (NaN never
does).  The empty case is modelled as none (Python raises there); it is never
reached on the runs produced by the amplitude extractor. -/
def pymax : List (Option ℚ) → Option ℚ
  | [] => none
  | x :: xs => xs.foldl (fun acc y => if ogt y acc then y else acc) x

/-- Python min over an iterable, dually to pymax. -/
def pymin : List (Option ℚ) → Option ℚ
  | [] => none
  | x :: xs => xs.foldl (fun acc y => if olt y acc then y else acc) x

/-- Maximum of a nonempty rational list (0 as the irrelevant empty default). -/
def qmax : List ℚ → ℚ
  | [] => 0
  | x :: xs => xs.foldl max x

/-- Minimum of a nonempty rational list (0 as the irrelevant empty default). -/
def qmin : List ℚ → ℚ
  | [] => 0
  | x :: xs => xs.foldl min x

/-- Numpy slice assignment a[s : e+1] = v restricted to the tail of the array
that starts at absolute index i: each remaining position j with s ≤ j ≤ e
receives v. -/
def fillFrom (v : Option ℚ) (s e : ℕ) : ℕ → List (Option ℚ) → List (Option ℚ)
  | _, [] => []
  | i, a :: l => (if s ≤ i ∧ i ≤ e then v else a) :: fillFrom v s e (i + 1) l

/-- Numpy slice assignment a[s : e+1] = v on a whole array. -/
def fillRange (v : Option ℚ) (s e : ℕ) (l : List (Option ℚ)) : List (Option ℚ) :=
  fillFrom v s e 0 l

/-- Indices where np.sign changes between consecutive samples of a
possibly-NaN series, as computed by
np.flatnonzero(data_sign[1:] != data_sign[:-1]) in h__getAmplitudes
(lines 960-961); a NaN sample differs from every neighbour. -/
def signChangeI (V : List (Option ℚ)) : List ℕ :=
  (List.range (V.length - 1)).filter
    (fun i => neqO (osign (V.getD (i + 1) none)) (osign (V.getD i none)))

/-- Value assigned to the run [c.1, c.2] by h__getAmplitudes (lines 985-988):
the slice max when the value at the run start is positive, else the slice min. -/
def chunkVal (V : List (Option ℚ)) (c : ℕ × ℕ) : Option ℚ :=
  if ogt (V.getD c.1 none) (some 0) then pymax ((V.drop c.1).take (c.2 + 1 - c.1))
  else pymin ((V.drop c.1).take (c.2 + 1 - c.1))

/-- LocomotionForagingBends.h__getAmplitudes (lines 932-990): between sign
changes take the max or min of the stretch and assign it to the whole stretch;
runs starting at a NaN sample are dropped, so NaN positions stay NaN.  The
source raises IndexError on an empty input (fancy-indexing an empty array);
the embedding is total and every theorem about it assumes a nonempty input. -/
def h__getAmplitudes (V : List (Option ℚ)) : List (Option ℚ) :=
  let n := V.length
  let sc := signChangeI V
  let startI : List ℕ := 0 :: sc.map (· + 1)
  let stopI : List ℕ := sc ++ [n - 1]
  let chunks := (startI.zip stopI).filter (fun c => !(V.getD c.1 none).isNone)
  chunks.foldl (fun acc c => fillRange (chunkVal V c) c.1 c.2 acc) (List.replicate n none)

/-- Partial-data-frame removal of h__foragingData (lines 896-904):
nose_bend_angle_d[:w] = NaN and nose_bend_angle_d[-w:] = NaN, guarded by
w > 0.  For w ≥ length the second slice covers the whole array, as in numpy. -/
def blankEdges (w : ℕ) (l : List (Option ℚ)) : List (Option ℚ) :=
  if w = 0 then l
  else fillRange none (l.length - w) (l.length - 1) (fillRange none 0 (w - 1) l)

/-- np.diff(x) * FPS (line 921) with NaN propagation. -/
def diffFps (fps : ℚ) (l : List (Option ℚ)) : List (Option ℚ) :=
  (List.range (l.length - 1)).map
    (fun i => (osub (l.getD (i + 1) none) (l.getD i none)).map (· * fps))

/-- speeds = np.empty(n) * NaN; speeds[1:-1] = (d[:-1] + d[1:]) / 2
(lines 922-924): a frame i with 1 ≤ i ≤ n-2 receives the mean of the adjacent
finite differences, every other frame stays NaN. -/
def centeredSpeeds (d : List (Option ℚ)) (n : ℕ) : List (Option ℚ) :=
  (List.range n).map
    (fun i =>
      if 1 ≤ i ∧ i + 1 < n then (oadd (d.getD (i - 1) none) (d.getD i none)).map (· / 2)
      else none)

/-- amplitudes[np.isnan(speeds)] = NaN (line 927). -/
def maskNaN (amps speeds : List (Option ℚ)) : List (Option ℚ) :=
  List.zipWith (fun a s => if s.isNone then none else a) amps speeds

/-- LocomotionForagingBends.h__foragingData (lines 876-929): blank the first
and last min_win_size frames, extract stair-step amplitudes, compute the
centered angular speed, and propagate the speed's NaN mask to the amplitudes. -/
def h__foragingData (nose_bend_angle_d : List (Option ℚ)) (min_win_size : ℕ) (fps : ℚ) :
    List (Option ℚ) × List (Option ℚ) :=
  let b := blankEdges min_win_size nose_bend_angle_d
  let amplitudes := h__getAmplitudes b
  let d_data := diffFps fps b
  let speeds := centeredSpeeds d_data b.length
  (maskNaN amplitudes speeds, speeds)

/-- Sign-change indices of a NaN-free scalar signal, as computed at
lines 389-391 of h__getBoundingZeroIndices. -/
def signChangeQ (a : List ℚ) : List ℕ :=
  (List.range (a.length - 1)).filter
    (fun i => decide (npSign (a.getD i 0) ≠ npSign (a.getD (i + 1) 0)))

/-- zeros(n) with ones scattered at the given indices (lines 440-441, 451-452). -/
def scatterOnes (n : ℕ) (idxs : List ℕ) : List ℕ :=
  (List.range n).map (fun i => if i ∈ idxs then 1 else 0)

/-- Running sum with initial accumulator s. -/
def cumsumFrom (s : ℕ) : List ℕ → List ℕ
  | [] => []
  | x :: xs => (s + x) :: cumsumFrom (s + x) xs

/-- np.cumsum on natural numbers. -/
def cumsum (l : List ℕ) : List ℕ := cumsumFrom 0 l

/-- right_sign_change_I[0] = 1 (line 453). -/
def setHead1 : List ℕ → List ℕ
  | [] => []
  | _ :: t => 1 :: t

/-- The window-expansion while loop of h__getBoundingZeroIndices
(lines 520-541).  fuel bounds the iteration count; every iteration strictly
decrements cl (breaking at 0) or strictly increments cr (breaking above nsc),
so with fuel = 2*nsc+3 the fuel case is unreachable.  The outer Option models
a Python IndexError aborting the whole call; the inner Option is the value
last written into the output arrays, if any (the source writes the arrays only
inside the loop body, so a loop that never runs writes nothing). -/
def expandLoop (left_values right_values : List ℕ) (nsc min_win_size i : ℕ) :
    ℕ → ℕ → ℕ → ℤ → ℤ → Option (ℤ × ℤ) → Option (Option (ℤ × ℤ))
  | 0, _, _, _, _, _ => none
  | fuel + 1, cl, cr, back, front, written =>
    if front - back + 1 < (min_win_size : ℤ) then
      if (i : ℤ) - back < front - (i : ℤ) then
        let cl2 := cl - 1
        if cl2 = 0 then some written
        else
          match left_values.get? cl2 with
          | none => none
          | some b2 =>
            expandLoop left_values right_values nsc min_win_size i fuel cl2 cr (b2 : ℤ)
              front (some ((b2 : ℤ), front))
      else
        let cr2 := cr + 1
        if nsc < cr2 then some written
        else
          match right_values.get? cr2 with
          | none => none
          | some f2 =>
            expandLoop left_values right_values nsc min_win_size i fuel cl cr2 back
              (f2 : ℤ) (some (back, (f2 : ℤ)))
    else some written

/-- One iteration of the frame loop of h__getBoundingZeroIndices
(lines 472-541): frames whose left or right pointer is 0 keep the initial
zeros; otherwise the crossing values are fetched through the pointers (an
out-of-range fetch is a Python IndexError, modelled as none) and the expansion
loop runs.  The result for the frame is whatever was last written inside the
loop, defaulting to the initial zeros. -/
def frameBounds (leftI rightI left_values right_values : List ℕ)
    (nsc min_win_size i : ℕ) : Option (ℤ × ℤ) :=
  let cl := leftI.getD i 0
  let cr := rightI.getD i 0
  if cl = 0 ∨ cr = 0 then some (0, 0)
  else
    match left_values.get? cl with
    | none => none
    | some b0 =>
      match right_values.get? cr with
      | none => none
      | some f0 =>
        (expandLoop left_values right_values nsc min_win_size i (2 * nsc + 3) cl cr
            (b0 : ℤ) (f0 : ℤ) none).map (fun w => w.getD (0, 0))

/-- Collects the per-frame results; a none (Python exception at some frame)
aborts the whole call, exactly as an exception unwinds the source loop. -/
def unzipOpt : List (Option (ℤ × ℤ)) → Option (List ℤ × List ℤ)
  | [] => some ([], [])
  | none :: _ => none
  | some p :: rest => (unzipOpt rest).map (fun q => (p.1 :: q.1, p.2 :: q.2))

/-- LocomotionCrawlingBends.h__getBoundingZeroIndices (lines 355-543) on a
NaN-free signal.  none models a Python IndexError: the source indexes
sign_change_I[-1] (line 457), which raises when the signal has no sign change
at all, and the frame loop can fetch right_values[n_sign_changes], one past
the end (line 537 check is 1-based but the array is 0-based). -/
def h__getBoundingZeroIndices (avg_bend_angles : List ℚ) (min_win_size : ℕ) :
    Option (List ℤ × List ℤ) :=
  let n := avg_bend_angles.length
  let sc := signChangeQ avg_bend_angles
  let nsc := sc.length
  match sc.getLast? with
  | none => none
  | some lastSC =>
    let leftI := cumsum (scatterOnes n (sc.map (· + 1)))
    let rightPre := cumsum (setHead1 (scatterOnes n (sc.dropLast.map (· + 1))))
    let rightI := (List.range n).map (fun i => if lastSC ≤ i then 0 else rightPre.getD i 0)
    unzipOpt ((List.range n).map
      (fun i => frameBounds leftI rightI sc (sc.map (· + 1)) nsc min_win_size i))

/-- np.nanmean over all elements: mean of the non-NaN entries, NaN when there
are none. -/
def nanmean (l : List (Option ℚ)) : Option ℚ :=
  let vals := l.filterMap id
  if vals.length = 0 then none else some (vals.sum / (vals.length : ℚ))

/-- Modelled from the spec: feature_helpers.interpolate (the GapInterpolator)
is not under src/.  Its only call site, line 200 of
LocomotionCrawlingBends.__init__, is proved unreachable whenever any frame is
segmented (claim C10), and the all-unsegmented case returns earlier, so its
value never influences any settled claim; it is modelled as the identity. -/
def interpolate (x : Option ℚ) : Option ℚ := x

/-- LocomotionCrawlingBends.h__getBendData (lines 216-350): the function
returns [None, None] unconditionally at line 245 (the statement is marked
DEBUG in the source); every line after that return is unreachable, so the
whole spectral path never executes. -/
def h__getBendData (avg_bend_angles : Option ℚ) (is_paused : List Bool) :
    Option (List (Option ℚ)) × Option (List (Option ℚ)) :=
  (none, none)

/-- Per-partition result of the crawling computation: each field is None
(no series at all) or a frame series. -/
structure BendPartitionResult where
  amplitude : Option (List (Option ℚ))
  frequency : Option (List (Option ℚ))

/-- Result of LocomotionCrawlingBends.__init__, instrumented with the number
of h__getBendData calls and of interpolate calls made while computing it. -/
structure CrawlingTrace where
  head : BendPartitionResult
  midbody : BendPartitionResult
  tail : BendPartitionResult
  bendDataCalls : ℕ
  interpCalls : ℕ

/-- One iteration of the partition loop (lines 192-208) over skeleton rows
[a, b).  np.nanmean is called without an axis argument (line 194), so the
averaged bend angle is a scalar, not a per-frame series; the second component
counts whether the interpolation branch (lines 199-200) was taken. -/
def crawlingPartition (bend_angles : List (List (Option ℚ))) (is_paused : List Bool)
    (is_segmented_mask : List Bool) (a b : ℕ) : BendPartitionResult × ℕ :=
  let avg := nanmean (((bend_angles.drop a).take (b - a)).flatten)
  let interpTaken := !(is_segmented_mask.all id || is_segmented_mask.any id)
  let avg2 := if interpTaken then interpolate avg else avg
  let res := h__getBendData avg2 is_paused
  (⟨res.1, res.2⟩, if interpTaken then 1 else 0)

/-- LocomotionCrawlingBends.__init__ (lines 131-213): if no frame is
segmented, every partition gets full-length all-NaN amplitude and frequency
series and returns at once; otherwise each of head, midbody and tail runs the
partition loop, which hands the averaged angle to h__getBendData. -/
def LocomotionCrawlingBends_init (bend_angles : List (List (Option ℚ)))
    (is_paused : List Bool) (is_segmented_mask : List Bool) : CrawlingTrace :=
  if !(is_segmented_mask.any id) then
    let nanData : List (Option ℚ) := List.replicate is_segmented_mask.length none
    { head := ⟨some nanData, some nanData⟩
      midbody := ⟨some nanData, some nanData⟩
      tail := ⟨some nanData, some nanData⟩
      bendDataCalls := 0
      interpCalls := 0 }
  else
    let h := crawlingPartition bend_angles is_paused is_segmented_mask 6 10
    let m := crawlingPartition bend_angles is_paused is_segmented_mask 23 27
    let t := crawlingPartition bend_angles is_paused is_segmented_mask 40 44
    { head := h.1
      midbody := m.1
      tail := t.1
      bendDataCalls := 3
      interpCalls := h.2 + m.2 + t.2 }

/-- The sequential masked corrections of lines 839-840 applied to one value:
entries above 180 lose 360, then entries below -180 gain 360. -/
def correct360 {α : Type} [LinearOrderedField α] (x : α) : α :=
  let x1 := if 180 < x then x - 360 else x
  if x1 < -180 then x1 + 360 else x1

/-- LocomotionForagingBends.h__computeNoseBends, lines 837-840: difference of
the two per-frame mean-angle series produced by h__computeAvgAngles, converted
to degrees, then corrected by ±360.  The inputs are the angle series
themselves; being outputs of np.arctan2 they always lie in (-pi, pi], and that
fact enters the theorems as a hypothesis.  piV stands for np.pi. -/
def h__computeNoseBends {α : Type} [LinearOrderedField α] (piV : α)
    (noseAngles neckAngles : List (Option α)) : List (Option α) :=
  List.zipWith
    (fun a b =>
      match a, b with
      | some x, some y => some (correct360 ((x - y) * (180 / piV)))
      | _, _ => none)
    noseAngles neckAngles

/-- Specification-side stair-step extractor with structural fuel, following
the spec text of section 4.4: split off the maximal constant-sign run at the
head, assign the run max when the run sign is positive and the run min
otherwise, and recurse on the remainder. -/
def stairStepGo : ℕ → List ℚ → List ℚ
  | 0, _ => []
  | _ + 1, [] => []
  | fuel + 1, x :: xs =>
    let t := xs.takeWhile (fun y => decide (npSign y = npSign x))
    List.replicate (t.length + 1) (if 0 < x then qmax (x :: t) else qmin (x :: t)) ++
      stairStepGo fuel (xs.dropWhile (fun y => decide (npSign y = npSign x)))

/-- Specification-side stair-step amplitude series (spec section 4.4). -/
def stairStepSpec (l : List ℚ) : List ℚ := stairStepGo l.length l

/-- C3: the zero-crossing bounder does not behave as claimed.  On the signal
[1, -1, 1] with minWin = 1, frame 1 has a sign change strictly before it and
strictly after it (signChangeQ = [0, 1], i.e. crossings between frames 0-1 and
1-2), so the claim requires back = 0 and front = 2 with span 3 ≥ 1; the code
instead returns the invalid marker (0, 0) for every frame, because the output
arrays are written only inside the expansion while loop, which never runs when
the initial window already meets the minimum.  On [1, -1, 1, 1, -1] the call
raises IndexError (modelled as none): frame 2's right pointer equals
n_sign_changes and right_values[n_sign_changes] is one past the end. -/
theorem c3_boundingZeros_eval :
    h__getBoundingZeroIndices [1, -1, 1] 1 = some ([0, 0, 0], [0, 0, 0]) ∧
    signChangeQ [1, -1, 1] = [0, 1] ∧
    h__getBoundingZeroIndices [1, -1, 1, 1, -1] 1 = none := by
  refine ⟨by decide, by decide, by decide⟩

/-- C1: with at least one segmented frame (here a 49 x 1 bend-angle matrix,
one unpaused, segmented frame) none of the six outputs of the crawling
computation is a frame series at all: h__getBendData returns [None, None]
at its DEBUG bypass (line 245), so every partition's amplitude and frequency
is None rather than a series of n elements. -/
theorem c1_no_series_when_segmented :
    (LocomotionCrawlingBends_init (List.replicate 49 [some 0]) [false] [true]).head.amplitude
        = none ∧
    (LocomotionCrawlingBends_init (List.replicate 49 [some 0]) [false] [true]).head.frequency
        = none ∧
    (LocomotionCrawlingBends_init (List.replicate 49 [some 0]) [false] [true]).midbody.amplitude
        = none ∧
    (LocomotionCrawlingBends_init (List.replicate 49 [some 0]) [false] [true]).midbody.frequency
        = none ∧
    (LocomotionCrawlingBends_init (List.replicate 49 [some 0]) [false] [true]).tail.amplitude
        = none ∧
    (LocomotionCrawlingBends_init (List.replicate 49 [some 0]) [false] [true]).tail.frequency
        = none := by
  refine ⟨rfl, rfl, rfl, rfl, rfl, rfl⟩

/-- C7: on a crawling input with segmented frames (two frames, one segmented,
none paused) no partition ever produces a defined frequency value: the
frequency output of every partition is None because the spectral path that
would enforce the [minFreq, maxFreq] bound (lines 324-325) sits after the
unconditional DEBUG return of h__getBendData and never executes. -/
theorem c7_no_defined_frequency :
    (LocomotionCrawlingBends_init (List.replicate 49 [some 0, some 1]) [false, false]
        [true, false]).head.frequency = none ∧
    (LocomotionCrawlingBends_init (List.replicate 49 [some 0, some 1]) [false, false]
        [true, false]).midbody.frequency = none ∧
    (LocomotionCrawlingBends_init (List.replicate 49 [some 0, some 1]) [false, false]
        [true, false]).tail.frequency = none := by
  refine ⟨rfl, rfl, rfl⟩

/-- C2: when the segmentation mask is false at every frame, the crawling
computation takes the early-return branch: every partition's amplitude and
frequency is a series of the input length that is NaN at every frame, and
h__getBendData (the spectral path) is invoked zero times.  The branch is a
total computation, so no exception is raised. -/
theorem c2_all_unsegmented (bend_angles : List (List (Option ℚ))) (is_paused : List Bool)
    (is_segmented_mask : List Bool) (h : is_segmented_mask.any id = false) :
    (LocomotionCrawlingBends_init bend_angles is_paused is_segmented_mask).head.amplitude
        = some (List.replicate is_segmented_mask.length none) ∧
    (LocomotionCrawlingBends_init bend_angles is_paused is_segmented_mask).head.frequency
        = some (List.replicate is_segmented_mask.length none) ∧
    (LocomotionCrawlingBends_init bend_angles is_paused is_segmented_mask).midbody.amplitude
        = some (List.replicate is_segmented_mask.length none) ∧
    (LocomotionCrawlingBends_init bend_angles is_paused is_segmented_mask).midbody.frequency
        = some (List.replicate is_segmented_mask.length none) ∧
    (LocomotionCrawlingBends_init bend_angles is_paused is_segmented_mask).tail.amplitude
        = some (List.replicate is_segmented_mask.length none) ∧
    (LocomotionCrawlingBends_init bend_angles is_paused is_segmented_mask).tail.frequency
        = some (List.replicate is_segmented_mask.length none) ∧
    (LocomotionCrawlingBends_init bend_angles is_paused is_segmented_mask).bendDataCalls = 0 := by
  simp [LocomotionCrawlingBends_init, h]

/-- Witness for C2 at a concrete input: an empty bend matrix with a two-frame
all-false segmentation mask. -/
theorem c2_all_unsegmented_witness :
    (([false, false] : List Bool).any id = false) ∧
    (LocomotionCrawlingBends_init (List.replicate 49 [some 0, some 1]) [false, false]
        [false, false]).head.amplitude = some [none, none] := by
  refine ⟨by decide, ?_⟩
  exact (c2_all_unsegmented (List.replicate 49 [some 0, some 1]) [false, false]
    [false, false] (by decide)).1

/-- C10: whenever at least one frame is segmented, the gap-interpolation
branch of the crawling constructor is never taken: its guard
not(all(mask) or any(mask)) is false as soon as any(mask) holds, so the
interpolate call count of the whole constructor is zero. -/
theorem c10_interpolation_unreachable (bend_angles : List (List (Option ℚ)))
    (is_paused : List Bool) (is_segmented_mask : List Bool)
    (h : is_segmented_mask.any id = true) :
    (LocomotionCrawlingBends_init bend_angles is_paused is_segmented_mask).interpCalls = 0 := by
  simp [LocomotionCrawlingBends_init, crawlingPartition, h]

/-- Witness for C10 at a concrete input with one segmented frame. -/
theorem c10_interpolation_unreachable_witness :
    (([true] : List Bool).any id = true) ∧
    (LocomotionCrawlingBends_init (List.replicate 49 [some 0]) [false] [true]).interpCalls
        = 0 := by
  exact ⟨by decide, c10_interpolation_unreachable (List.replicate 49 [some 0]) [false] [true]
    (by decide)⟩

theorem oadd_none_left (x : Option ℚ) : oadd none x = none := rfl

theorem oadd_none_right (x : Option ℚ) : oadd x none = none := by cases x <;> rfl

theorem osub_none_left (x : Option ℚ) : osub none x = none := rfl

theorem osub_none_right (x : Option ℚ) : osub x none = none := by cases x <;> rfl

theorem fillFrom_length (v : Option ℚ) (s e : ℕ) (l : List (Option ℚ)) :
    ∀ j, (fillFrom v s e j l).length = l.length := by
  induction l with
  | nil => intro j; rfl
  | cons a t ih => intro j; simp [fillFrom, ih (j + 1)]

theorem fillFrom_getD (v : Option ℚ) (s e : ℕ) (l : List (Option ℚ)) (j i : ℕ) :
    (fillFrom v s e j l).getD i none =
      if i < l.length ∧ s ≤ j + i ∧ j + i ≤ e then v else l.getD i none := by
  induction l generalizing j i with
  | nil => simp [fillFrom]
  | cons a t ih =>
    cases i with
    | zero =>
      simp only [fillFrom, List.getD_cons_zero, List.length_cons]
      exact if_congr (by omega) rfl rfl
    | succ i2 =>
      simp only [fillFrom, List.getD_cons_succ, List.length_cons]
      rw [ih (j + 1) i2]
      exact if_congr (by omega) rfl rfl

theorem blankEdges_length (w : ℕ) (l : List (Option ℚ)) :
    (blankEdges w l).length = l.length := by
  unfold blankEdges
  split
  · rfl
  · rw [fillRange, fillFrom_length, fillRange, fillFrom_length]

theorem getD_range_map {α : Type} (n : ℕ) (f : ℕ → α) (d : α) (i : ℕ) :
    ((List.range n).map f).getD i d = if i < n then f i else d := by
  by_cases h : i < n
  · rw [List.getD_eq_getElem _ _ (by simpa using h)]
    simp [h]
  · rw [List.getD_eq_default _ _ (by simpa using Nat.le_of_not_lt h)]
    simp [h]

theorem blankEdges_getD_none (w : ℕ) (l : List (Option ℚ)) (i : ℕ) (hw : 0 < w)
    (hi : i < l.length) (h : i < w ∨ l.length - w ≤ i) :
    (blankEdges w l).getD i none = none := by
  have hinner : (fillRange none 0 (w - 1) l).length = l.length := by
    rw [fillRange, fillFrom_length]
  unfold blankEdges
  rw [if_neg (by omega), fillRange, fillFrom_getD]
  by_cases hc : l.length - w ≤ i
  · rw [if_pos ⟨by omega, by omega, by omega⟩]
  · rw [if_neg (by omega), fillRange, fillFrom_getD, if_pos ⟨hi, by omega, by omega⟩]

theorem maskNaN_getD_none (la ls : List (Option ℚ)) (i : ℕ)
    (h : ls.getD i none = none) : (maskNaN la ls).getD i none = none := by
  induction la generalizing ls i with
  | nil => simp [maskNaN]
  | cons a t ih =>
    cases ls with
    | nil => simp [maskNaN]
    | cons s ss =>
      cases i with
      | zero =>
        have hs : s = none := by simpa using h
        simp [maskNaN, hs]
      | succ i2 =>
        have := ih ss i2 (by simpa using h)
        simpa [maskNaN] using this

/-- C5: the angular-speed series of h__foragingData has the input length, is
undefined at the first and last frame, and at every interior frame equals the
mean of the two adjacent finite differences d of the signal it differences
(the input after partial-data blanking; for w = 0 that signal is the input
itself), with NaN propagation. -/
theorem c5_centered_speed (A : List (Option ℚ)) (w : ℕ) (fps : ℚ)
    (h2 : 2 ≤ A.length) :
    (h__foragingData A w fps).2.length = A.length ∧
    (h__foragingData A w fps).2.getD 0 none = none ∧
    (h__foragingData A w fps).2.getD (A.length - 1) none = none ∧
    ∀ i, 1 ≤ i → i ≤ A.length - 2 →
      (h__foragingData A w fps).2.getD i none =
        (oadd ((diffFps fps (blankEdges w A)).getD (i - 1) none)
            ((diffFps fps (blankEdges w A)).getD i none)).map (· / 2) := by
  have hblen := blankEdges_length w A
  have hsnd : (h__foragingData A w fps).2
      = centeredSpeeds (diffFps fps (blankEdges w A)) (blankEdges w A).length := rfl
  refine ⟨?_, ?_, ?_, ?_⟩
  · rw [hsnd, centeredSpeeds]
    simp [hblen]
  · rw [hsnd, centeredSpeeds, getD_range_map, if_pos (by omega), if_neg (by omega)]
  · rw [hsnd, centeredSpeeds, getD_range_map, if_pos (by omega), if_neg (by omega)]
  · intro i h1 hi
    rw [hsnd, centeredSpeeds, getD_range_map, if_pos (by omega), if_pos (by omega)]

/-- Witness for C5 on a three-frame constant signal with w = 0 (no blanking,
so d is literally diff(A) * fps). -/
theorem c5_witness :
    (2 ≤ ([some 0, some 0, some 0] : List (Option ℚ)).length) ∧
    (h__foragingData [some 0, some 0, some 0] 0 1).2.getD 1 none =
      (oadd ((diffFps 1 (blankEdges 0 [some 0, some 0, some 0])).getD 0 none)
          ((diffFps 1 (blankEdges 0 [some 0, some 0, some 0])).getD 1 none)).map (· / 2) := by
  refine ⟨by decide, ?_⟩
  exact (c5_centered_speed [some 0, some 0, some 0] 0 1 (by decide)).2.2.2 1 (by decide)
    (by decide)

/-- C6: at every frame where the foraging angular speed is undefined, the
returned foraging amplitude is undefined as well (line 927 copies the speed's
NaN mask onto the amplitudes). -/
theorem c6_speed_nan_propagates (A : List (Option ℚ)) (w : ℕ) (fps : ℚ) (i : ℕ)
    (h : (h__foragingData A w fps).2.getD i none = none) :
    (h__foragingData A w fps).1.getD i none = none := by
  show (maskNaN (h__getAmplitudes (blankEdges w A))
      (centeredSpeeds (diffFps fps (blankEdges w A)) (blankEdges w A).length)).getD i none
      = none
  exact maskNaN_getD_none _ _ _ h

/-- Witness for C6 at frame 0 of a three-frame signal. -/
theorem c6_witness :
    (h__foragingData [some 1, some 2, some 3] 1 1).2.getD 0 none = none ∧
    (h__foragingData [some 1, some 2, some 3] 1 1).1.getD 0 none = none := by
  refine ⟨by decide, c6_speed_nan_propagates [some 1, some 2, some 3] 1 1 0 (by decide)⟩

/-- C9: with a positive blanking window w, both returned foraging series are
undefined at every frame of the first w frames and of the last w frames. -/
theorem c9_edge_blanking (A : List (Option ℚ)) (w : ℕ) (fps : ℚ) (i : ℕ)
    (hw : 0 < w) (hi : i < A.length) (hedge : i < w ∨ A.length - w ≤ i) :
    (h__foragingData A w fps).1.getD i none = none ∧
    (h__foragingData A w fps).2.getD i none = none := by
  have hblen := blankEdges_length w A
  have hspeed : (h__foragingData A w fps).2.getD i none = none := by
    show (centeredSpeeds (diffFps fps (blankEdges w A)) (blankEdges w A).length).getD i none
        = none
    rw [centeredSpeeds, getD_range_map, if_pos (by omega)]
    by_cases hc : 1 ≤ i ∧ i + 1 < (blankEdges w A).length
    · rw [if_pos hc]
      rcases hedge with hl | hr
      · have hd : (diffFps fps (blankEdges w A)).getD (i - 1) none = none := by
          rw [diffFps, getD_range_map, if_pos (by omega)]
          have h1 : (blankEdges w A).getD (i - 1) none = none :=
            blankEdges_getD_none w A (i - 1) hw (by omega) (Or.inl (by omega))
          rw [h1, osub_none_right]
          rfl
        rw [hd, oadd_none_left]
        rfl
      · have hd : (diffFps fps (blankEdges w A)).getD i none = none := by
          rw [diffFps, getD_range_map, if_pos (by omega)]
          have h1 : (blankEdges w A).getD i none = none :=
            blankEdges_getD_none w A i hw (by omega) (Or.inr (by omega))
          rw [h1, osub_none_right]
          rfl
        rw [hd, oadd_none_right]
        rfl
    · rw [if_neg hc]
  exact ⟨by
    show (maskNaN (h__getAmplitudes (blankEdges w A))
        (centeredSpeeds (diffFps fps (blankEdges w A)) (blankEdges w A).length)).getD i none
        = none
    exact maskNaN_getD_none _ _ _ hspeed, hspeed⟩

/-- Witness for C9 at the first frame of a three-frame signal with w = 1. -/
theorem c9_witness :
    0 < 1 ∧ (0 < ([some 1, some 2, some 3] : List (Option ℚ)).length) ∧
    (h__foragingData [some 1, some 2, some 3] 1 1).1.getD 0 none = none ∧
    (h__foragingData [some 1, some 2, some 3] 1 1).2.getD 0 none = none := by
  exact ⟨by decide, by decide,
    c9_edge_blanking [some 1, some 2, some 3] 1 1 0 (by decide) (by decide)
      (Or.inl (by decide))⟩

theorem correct360_mem_Icc (t : ℝ) (h1 : -360 < t) (h2 : t < 360) :
    correct360 t ∈ Set.Icc (-180 : ℝ) 180 := by
  rw [Set.mem_Icc]
  simp only [correct360]
  split_ifs <;> constructor <;> linarith

/-- C8 counterexample: the nose-bend value -180 degrees is attainable from
legitimate arctan2 outputs (nose angle -pi/2, neck angle pi/2, both in
(-pi, pi]), and -180 is not in the claimed half-open interval (-180, 180]:
the raw difference -180 satisfies neither masked correction of lines 839-840
and is returned unchanged. -/
theorem c8_counterexample :
    h__computeNoseBends Real.pi [some (-(Real.pi / 2))] [some (Real.pi / 2)]
        = [some (-180 : ℝ)] ∧
    (-(Real.pi / 2)) ∈ Set.Ioc (-Real.pi) Real.pi ∧
    (Real.pi / 2) ∈ Set.Ioc (-Real.pi) Real.pi ∧
    (-180 : ℝ) ∉ Set.Ioc (-180 : ℝ) 180 := by
  have hpi := Real.pi_pos
  refine ⟨?_, ?_, ?_, ?_⟩
  · have harg : ((-(Real.pi / 2)) - Real.pi / 2) * (180 / Real.pi) = -180 := by
      field_simp
      ring
    show [some (correct360 (((-(Real.pi / 2)) - Real.pi / 2) * (180 / Real.pi)))]
        = [some (-180 : ℝ)]
    rw [harg]
    norm_num [correct360]
  · rw [Set.mem_Ioc]
    constructor <;> linarith
  · rw [Set.mem_Ioc]
    constructor <;> linarith
  · rw [Set.mem_Ioc]
    intro h
    exact absurd h.1 (lt_irrefl _)

/-- C8 amended: for angle series whose defined entries lie in (-pi, pi] (the
range of np.arctan2), every defined nose-bend angle produced by
h__computeNoseBends lies in the closed interval [-180, 180] degrees; the
endpoint -180 is attainable, so the interval cannot be taken half-open. -/
theorem c8_amended (noseAngles neckAngles : List (Option ℝ))
    (hn : ∀ x : ℝ, some x ∈ noseAngles → x ∈ Set.Ioc (-Real.pi) Real.pi)
    (hk : ∀ x : ℝ, some x ∈ neckAngles → x ∈ Set.Ioc (-Real.pi) Real.pi) :
    ∀ y : ℝ, some y ∈ h__computeNoseBends Real.pi noseAngles neckAngles →
      y ∈ Set.Icc (-180 : ℝ) 180 := by
  induction noseAngles generalizing neckAngles with
  | nil =>
    intro y hy
    simp [h__computeNoseBends] at hy
  | cons a as ih =>
    cases neckAngles with
    | nil =>
      intro y hy
      simp [h__computeNoseBends] at hy
    | cons b bs =>
      intro y hy
      have ihtail : ∀ y : ℝ, some y ∈ h__computeNoseBends Real.pi as bs →
          y ∈ Set.Icc (-180 : ℝ) 180 :=
        ih bs (fun x hx => hn x (List.mem_cons_of_mem _ hx))
          (fun x hx => hk x (List.mem_cons_of_mem _ hx))
      cases a with
      | none =>
        have hy2 : some y ∈ (none : Option ℝ) :: h__computeNoseBends Real.pi as bs := hy
        rcases List.mem_cons.mp hy2 with hh | ht
        · exact absurd hh (by simp)
        · exact ihtail y ht
      | some x1 =>
        cases b with
        | none =>
          have hy2 : some y ∈ (none : Option ℝ) :: h__computeNoseBends Real.pi as bs := hy
          rcases List.mem_cons.mp hy2 with hh | ht
          · exact absurd hh (by simp)
          · exact ihtail y ht
        | some x2 =>
          have hy2 : some y ∈ some (correct360 ((x1 - x2) * (180 / Real.pi)))
              :: h__computeNoseBends Real.pi as bs := hy
          rcases List.mem_cons.mp hy2 with hh | ht
          · have hyv : y = correct360 ((x1 - x2) * (180 / Real.pi)) := by
              simpa using hh
            have hx1 := Set.mem_Ioc.mp (hn x1 (List.mem_cons_self _ _))
            have hx2 := Set.mem_Ioc.mp (hk x2 (List.mem_cons_self _ _))
            have hpi := Real.pi_pos
            have hpos : (0 : ℝ) < 180 / Real.pi := by positivity
            have key : (2 * Real.pi) * (180 / Real.pi) = 360 := by
              field_simp
              ring
            have hub : (x1 - x2) * (180 / Real.pi) < 360 := by
              calc (x1 - x2) * (180 / Real.pi)
                  < (2 * Real.pi) * (180 / Real.pi) :=
                    mul_lt_mul_of_pos_right (by linarith [hx1.2, hx2.1]) hpos
                _ = 360 := key
            have hlb : -360 < (x1 - x2) * (180 / Real.pi) := by
              have hstep : (-(2 * Real.pi)) * (180 / Real.pi)
                  < (x1 - x2) * (180 / Real.pi) :=
                mul_lt_mul_of_pos_right (by linarith [hx1.1, hx2.2]) hpos
              have hneg : (-(2 * Real.pi)) * (180 / Real.pi) = -360 := by
                rw [neg_mul, key]
              linarith
            rw [hyv]
            exact correct360_mem_Icc _ hlb hub
          · exact ihtail y ht

/-- Witness for the amended C8 at the angle pair (0, 0). -/
theorem c8_amended_witness :
    h__computeNoseBends Real.pi [some (0 : ℝ)] [some (0 : ℝ)] = [some (0 : ℝ)] ∧
    (0 : ℝ) ∈ Set.Icc (-180 : ℝ) 180 := by
  have hpi := Real.pi_pos
  have heval : h__computeNoseBends Real.pi [some (0 : ℝ)] [some (0 : ℝ)]
      = [some (0 : ℝ)] := by
    show [some (correct360 (((0 : ℝ) - 0) * (180 / Real.pi)))] = [some (0 : ℝ)]
    norm_num [correct360]
  refine ⟨heval, ?_⟩
  refine c8_amended [some (0 : ℝ)] [some (0 : ℝ)] ?_ ?_ 0 ?_
  · intro x hx
    have : x = 0 := by simpa using hx
    subst this
    rw [Set.mem_Ioc]
    constructor <;> linarith
  · intro x hx
    have : x = 0 := by simpa using hx
    subst this
    rw [Set.mem_Ioc]
    constructor <;> linarith
  · rw [heval]
    exact List.mem_singleton.mpr rfl

theorem fillFrom_append (v : Option ℚ) (s e : ℕ) (l₁ l₂ : List (Option ℚ)) :
    ∀ j, fillFrom v s e j (l₁ ++ l₂)
      = fillFrom v s e j l₁ ++ fillFrom v s e (j + l₁.length) l₂ := by
  induction l₁ with
  | nil => intro j; simp [fillFrom]
  | cons a t ih =>
    intro j
    simp only [List.cons_append, fillFrom, List.length_cons, List.append_eq]
    rw [ih (j + 1), show j + 1 + t.length = j + (t.length + 1) from by omega]

theorem fillFrom_of_gt (v : Option ℚ) (s e : ℕ) (l : List (Option ℚ)) :
    ∀ j, e < j → fillFrom v s e j l = l := by
  induction l with
  | nil => intro j _; rfl
  | cons a t ih =>
    intro j hj
    simp only [fillFrom]
    rw [if_neg (by omega), ih (j + 1) (by omega)]

theorem fillFrom_of_lt_start (v : Option ℚ) (s e : ℕ) (l : List (Option ℚ)) :
    ∀ j, j + l.length ≤ s → fillFrom v s e j l = l := by
  induction l with
  | nil => intro j _; rfl
  | cons a t ih =>
    intro j hj
    simp only [List.length_cons] at hj
    simp only [fillFrom]
    rw [if_neg (by omega), ih (j + 1) (by omega)]

theorem fillFrom_shift (v : Option ℚ) (s e k : ℕ) (l : List (Option ℚ)) :
    ∀ j, fillFrom v (s + k) (e + k) (j + k) l = fillFrom v s e j l := by
  induction l with
  | nil => intro j; rfl
  | cons a t ih =>
    intro j
    simp only [fillFrom]
    have hhead : (if s + k ≤ j + k ∧ j + k ≤ e + k then v else a)
        = (if s ≤ j ∧ j ≤ e then v else a) := if_congr (by omega) rfl rfl
    rw [hhead, show j + k + 1 = (j + 1) + k from by omega, ih (j + 1)]

theorem fillFrom_replicate_full (v : Option ℚ) (s e : ℕ) :
    ∀ (k j : ℕ), s ≤ j → j + k ≤ e + 1 →
      fillFrom v s e j (List.replicate k none) = List.replicate k v := by
  intro k
  induction k with
  | zero => intro j _ _; rfl
  | succ k2 ih =>
    intro j h1 h2
    simp only [List.replicate_succ, fillFrom]
    rw [if_pos ⟨h1, by omega⟩, ih (j + 1) (by omega) (by omega)]

theorem pymax_foldl (xs : List ℚ) : ∀ x : ℚ,
    (List.map some xs).foldl (fun acc y => if ogt y acc then y else acc) (some x)
      = some (xs.foldl max x) := by
  induction xs with
  | nil => intro x; rfl
  | cons y ys ih =>
    intro x
    simp only [List.map_cons, List.foldl_cons]
    have hstep : (if ogt (some y) (some x) then some y else some x) = some (max x y) := by
      simp only [ogt, max_def, decide_eq_true_eq]
      split_ifs with h1 h2 h2 <;> first | rfl | (congr 1; linarith)
    rw [hstep, ih]

theorem pymin_foldl (xs : List ℚ) : ∀ x : ℚ,
    (List.map some xs).foldl (fun acc y => if olt y acc then y else acc) (some x)
      = some (xs.foldl min x) := by
  induction xs with
  | nil => intro x; rfl
  | cons y ys ih =>
    intro x
    simp only [List.map_cons, List.foldl_cons]
    have hstep : (if olt (some y) (some x) then some y else some x) = some (min x y) := by
      simp only [olt, min_def, decide_eq_true_eq]
      split_ifs with h1 h2 h2 <;> first | rfl | (congr 1; linarith)
    rw [hstep, ih]

theorem pymax_map_some (x : ℚ) (xs : List ℚ) :
    pymax (List.map some (x :: xs)) = some (qmax (x :: xs)) := by
  simp only [List.map_cons, pymax, qmax]
  exact pymax_foldl xs x

theorem pymin_map_some (x : ℚ) (xs : List ℚ) :
    pymin (List.map some (x :: xs)) = some (qmin (x :: xs)) := by
  simp only [List.map_cons, pymin, qmin]
  exact pymin_foldl xs x

theorem getD_map_some (l : List ℚ) (i : ℕ) (h : i < l.length) :
    (List.map some l).getD i none = some (l.getD i 0) := by
  rw [List.getD_eq_getElem _ _ (by simpa using h), List.getD_eq_getElem _ _ h]
  simp

theorem run_sign (x : ℚ) (t : List ℚ) (ht : ∀ a ∈ t, npSign a = npSign x) :
    ∀ i < (x :: t).length, npSign ((x :: t).getD i 0) = npSign x := by
  intro i hi
  cases i with
  | zero => rfl
  | succ i2 =>
    simp only [List.getD_cons_succ]
    have hlen : i2 < t.length := by
      simp only [List.length_cons] at hi
      omega
    rw [List.getD_eq_getElem _ _ hlen]
    exact ht _ (List.getElem_mem hlen)

theorem dropWhile_head_false {α : Type} (p : α → Bool) :
    ∀ (l : List α) (y : α) (ys : List α), l.dropWhile p = y :: ys → p y = false := by
  intro l
  induction l with
  | nil => intro y ys h; simp [List.dropWhile] at h
  | cons a t ih =>
    intro y ys h
    rw [List.dropWhile_cons] at h
    by_cases hp : p a = true
    · rw [if_pos hp] at h
      exact ih y ys h
    · rw [if_neg hp] at h
      injection h with h1 _
      subst h1
      simpa using hp


theorem neq_pred_true (V : List (Option ℚ)) (i : ℕ) (a b : ℚ)
    (h1 : V.getD i none = some a) (h2 : V.getD (i + 1) none = some b)
    (hne : npSign b ≠ npSign a) :
    neqO (osign (V.getD (i + 1) none)) (osign (V.getD i none)) = true := by
  rw [h1, h2]
  simp [osign, neqO, hne]

theorem neq_pred_false (V : List (Option ℚ)) (i : ℕ) (a b : ℚ)
    (h1 : V.getD i none = some a) (h2 : V.getD (i + 1) none = some b)
    (heq : npSign b = npSign a) :
    neqO (osign (V.getD (i + 1) none)) (osign (V.getD i none)) = false := by
  rw [h1, h2]
  simp [osign, neqO, heq]

theorem signChangeI_const (x : ℚ) (t : List ℚ) (ht : ∀ a ∈ t, npSign a = npSign x) :
    signChangeI (List.map some (x :: t)) = [] := by
  rw [signChangeI, List.filter_eq_nil_iff]
  intro i hi
  have hi2 : i < t.length := by
    simp only [List.mem_range, List.length_map, List.length_cons] at hi
    omega
  have h1 : (List.map some (x :: t)).getD i none = some ((x :: t).getD i 0) :=
    getD_map_some _ _ (by simp only [List.length_cons]; omega)
  have h2 : (List.map some (x :: t)).getD (i + 1) none = some ((x :: t).getD (i + 1) 0) :=
    getD_map_some _ _ (by simp only [List.length_cons]; omega)
  have e1 := run_sign x t ht i (by simp only [List.length_cons]; omega)
  have e2 := run_sign x t ht (i + 1) (by simp only [List.length_cons]; omega)
  have hfalse := neq_pred_false _ i _ _ h1 h2 (e2.trans e1.symm)
  simp only [hfalse]
  exact Bool.false_ne_true

theorem signChangeI_decomp (x : ℚ) (t : List ℚ) (y : ℚ) (ys : List ℚ)
    (ht : ∀ a ∈ t, npSign a = npSign x) (hy : npSign y ≠ npSign x) :
    signChangeI (List.map some ((x :: t) ++ (y :: ys)))
      = t.length :: (signChangeI (List.map some (y :: ys))).map
          (fun c => (t.length + 1) + c) := by
  have hget : ∀ i, i < (x :: t).length →
      (List.map some ((x :: t) ++ (y :: ys))).getD i none = some ((x :: t).getD i 0) := by
    intro i hi
    rw [List.map_append, List.getD_append _ _ _ _ (by simpa using hi)]
    exact getD_map_some _ _ hi
  have hgetB : ∀ i, (List.map some ((x :: t) ++ (y :: ys))).getD ((t.length + 1) + i) none
      = (List.map some (y :: ys)).getD i none := by
    intro i
    rw [List.map_append,
      List.getD_append_right _ _ _ _ (by simp only [List.length_map, List.length_cons]; omega)]
    congr 1
    simp only [List.length_map, List.length_cons]
    omega
  rw [signChangeI]
  have hlen : (List.map some ((x :: t) ++ (y :: ys))).length - 1
      = (t.length + 1) + ys.length := by
    simp only [List.length_map, List.length_append, List.length_cons]
    omega
  rw [hlen, List.range_add, List.filter_append]
  have hpart1 : (List.range (t.length + 1)).filter
      (fun i => neqO (osign ((List.map some ((x :: t) ++ (y :: ys))).getD (i + 1) none))
        (osign ((List.map some ((x :: t) ++ (y :: ys))).getD i none))) = [t.length] := by
    rw [List.range_succ, List.filter_append]
    have hnil : (List.range t.length).filter
        (fun i => neqO (osign ((List.map some ((x :: t) ++ (y :: ys))).getD (i + 1) none))
          (osign ((List.map some ((x :: t) ++ (y :: ys))).getD i none))) = [] := by
      rw [List.filter_eq_nil_iff]
      intro i hi
      have hi2 : i < t.length := List.mem_range.mp hi
      have h1 := hget i (by simp only [List.length_cons]; omega)
      have h2 := hget (i + 1) (by simp only [List.length_cons]; omega)
      have e1 := run_sign x t ht i (by simp only [List.length_cons]; omega)
      have e2 := run_sign x t ht (i + 1) (by simp only [List.length_cons]; omega)
      have hfalse := neq_pred_false _ i _ _ h1 h2 (e2.trans e1.symm)
      simp only [hfalse]
      exact Bool.false_ne_true
    have h1 := hget t.length (by simp only [List.length_cons]; omega)
    have h2 : (List.map some ((x :: t) ++ (y :: ys))).getD (t.length + 1) none = some y := by
      have hz := hgetB 0
      simpa using hz
    have e1 := run_sign x t ht t.length (by simp only [List.length_cons]; omega)
    have htrue := neq_pred_true _ t.length _ _ h1 h2 (by rw [e1]; exact hy)
    rw [hnil, List.nil_append]
    simp only [List.filter_cons, List.filter_nil, htrue]
    rfl
  rw [hpart1]
  have hpart2 : (List.filter
      (fun i => neqO (osign ((List.map some ((x :: t) ++ (y :: ys))).getD (i + 1) none))
        (osign ((List.map some ((x :: t) ++ (y :: ys))).getD i none)))
      ((List.range ys.length).map (fun c => (t.length + 1) + c)))
      = (signChangeI (List.map some (y :: ys))).map (fun c => (t.length + 1) + c) := by
    rw [List.filter_map]
    have hcong : List.filter
        ((fun i => neqO (osign ((List.map some ((x :: t) ++ (y :: ys))).getD (i + 1) none))
          (osign ((List.map some ((x :: t) ++ (y :: ys))).getD i none)))
          ∘ (fun c => (t.length + 1) + c)) (List.range ys.length)
        = List.filter
          (fun i => neqO (osign ((List.map some (y :: ys)).getD (i + 1) none))
            (osign ((List.map some (y :: ys)).getD i none))) (List.range ys.length) := by
      apply List.filter_congr
      intro i _
      simp only [Function.comp_apply]
      rw [show (t.length + 1) + i + 1 = (t.length + 1) + (i + 1) from by omega]
      rw [hgetB (i + 1), hgetB i]
    rw [hcong]
    have hlen2 : (List.map some (y :: ys)).length - 1 = ys.length := by simp
    rw [signChangeI, hlen2]
  rw [hpart2, List.singleton_append]

theorem getD_map_some_append_right (A B : List ℚ) (i : ℕ) :
    (List.map some (A ++ B)).getD (A.length + i) none = (List.map some B).getD i none := by
  rw [List.map_append,
    List.getD_append_right _ _ _ _ (by simp only [List.length_map]; omega)]
  congr 1
  simp only [List.length_map]
  omega

theorem chunkVal_shift (A B : List ℚ) (r : ℕ) (hr : r = A.length) (c : ℕ × ℕ) :
    chunkVal (List.map some (A ++ B)) (r + c.1, r + c.2) = chunkVal (List.map some B) c := by
  subst hr
  simp only [chunkVal]
  rw [getD_map_some_append_right]
  have hdrop : (List.map some (A ++ B)).drop (A.length + c.1)
      = (List.map some B).drop c.1 := by
    rw [List.map_append,
      show A.length + c.1 = (List.map some A).length + c.1 from by simp,
      ← List.drop_drop, List.drop_left]
  rw [hdrop, show A.length + c.2 + 1 - (A.length + c.1) = c.2 + 1 - c.1 from by omega]

theorem foldl_fill_append (l₁ l₂ : List (Option ℚ)) (A B : List ℚ) (r : ℕ)
    (hAB : l₁ ++ l₂ = List.map some (A ++ B)) (hl2 : l₂ = List.map some B)
    (hr : r = A.length) (hr1 : l₁.length = r) :
    ∀ (cs : List (ℕ × ℕ)) (acc₁ acc₂ : List (Option ℚ)), acc₁.length = r →
      List.foldl (fun acc c => fillRange (chunkVal (l₁ ++ l₂) c) c.1 c.2 acc) (acc₁ ++ acc₂)
          (cs.map (fun c => (r + c.1, r + c.2)))
        = acc₁ ++ List.foldl (fun acc c => fillRange (chunkVal l₂ c) c.1 c.2 acc) acc₂ cs := by
  intro cs
  induction cs with
  | nil => intro acc₁ acc₂ _; rfl
  | cons c cs2 ih =>
    intro acc₁ acc₂ hlen
    simp only [List.map_cons, List.foldl_cons]
    have hval : chunkVal (l₁ ++ l₂) (r + c.1, r + c.2) = chunkVal l₂ c := by
      rw [hAB, hl2]
      exact chunkVal_shift A B r hr c
    have hstep : fillRange (chunkVal (l₁ ++ l₂) (r + c.1, r + c.2)) (r + c.1) (r + c.2)
        (acc₁ ++ acc₂) = acc₁ ++ fillRange (chunkVal l₂ c) c.1 c.2 acc₂ := by
      rw [hval, fillRange, fillFrom_append,
        fillFrom_of_lt_start _ _ _ _ _ (by omega),
        show 0 + acc₁.length = 0 + r from by rw [hlen],
        show r + c.1 = c.1 + r from by omega, show r + c.2 = c.2 + r from by omega,
        fillFrom_shift, fillRange]
    rw [hstep, ih acc₁ _ hlen]

theorem zip_chunks_shift (a : ℕ) (sc : List ℕ) (m : ℕ) :
    ((0 :: ((a :: sc.map (fun c => (a + 1) + c)).map (· + 1))).zip
      ((a :: sc.map (fun c => (a + 1) + c)) ++ [(a + 1) + m]))
    = (0, a) :: ((0 :: sc.map (· + 1)).zip (sc ++ [m])).map
        (fun c => ((a + 1) + c.1, (a + 1) + c.2)) := by
  simp only [List.map_cons, List.cons_append, List.zip_cons_cons]
  congr 1
  have h1 : (a + 1) :: (sc.map (fun c => (a + 1) + c)).map (· + 1)
      = (0 :: sc.map (· + 1)).map (fun c => (a + 1) + c) := by
    simp only [List.map_cons, List.map_map, Nat.add_zero]
    congr 1
  have h2 : (sc.map (fun c => (a + 1) + c)) ++ [(a + 1) + m]
      = (sc ++ [m]).map (fun c => (a + 1) + c) := by
    rw [List.map_append]
    rfl
  rw [h1, h2, List.zip_map]
  apply List.map_congr_left
  intro c _
  rfl

theorem chunkVal_whole (x : ℚ) (t : List ℚ) :
    chunkVal (List.map some (x :: t)) (0, t.length)
      = some (if 0 < x then qmax (x :: t) else qmin (x :: t)) := by
  simp only [chunkVal]
  have hd : (List.map some (x :: t)).getD 0 none = some x := rfl
  have hslice : ((List.map some (x :: t)).drop 0).take (t.length + 1 - 0)
      = List.map some (x :: t) := by
    rw [List.drop_zero, show t.length + 1 - 0 = (List.map some (x :: t)).length from by simp,
      List.take_length]
  rw [hd, hslice]
  by_cases h0 : 0 < x
  · rw [if_pos (by simp [ogt, h0]), if_pos h0, pymax_map_some]
  · rw [if_neg (by simp [ogt, h0]), if_neg h0, pymin_map_some]

theorem chunkVal_head (x : ℚ) (t rest : List ℚ) :
    chunkVal (List.map some ((x :: t) ++ rest)) (0, t.length)
      = some (if 0 < x then qmax (x :: t) else qmin (x :: t)) := by
  simp only [chunkVal]
  have hd : (List.map some ((x :: t) ++ rest)).getD 0 none = some x := rfl
  have hslice : ((List.map some ((x :: t) ++ rest)).drop 0).take (t.length + 1 - 0)
      = List.map some (x :: t) := by
    rw [List.drop_zero, List.map_append,
      show t.length + 1 - 0 = (List.map some (x :: t)).length from by simp,
      List.take_left]
  rw [hd, hslice]
  by_cases h0 : 0 < x
  · rw [if_pos (by simp [ogt, h0]), if_pos h0, pymax_map_some]
  · rw [if_neg (by simp [ogt, h0]), if_neg h0, pymin_map_some]

theorem getAmps_nil : h__getAmplitudes [] = [] := rfl

theorem getAmps_decomp (x : ℚ) (t B : List ℚ)
    (ht : ∀ a ∈ t, npSign a = npSign x)
    (hB : ∀ y ys, B = y :: ys → npSign y ≠ npSign x) :
    h__getAmplitudes (List.map some ((x :: t) ++ B))
      = List.replicate (t.length + 1)
          (some (if 0 < x then qmax (x :: t) else qmin (x :: t)))
        ++ h__getAmplitudes (List.map some B) := by
  cases B with
  | nil =>
    rw [List.append_nil, show List.map some ([] : List ℚ) = [] from rfl, getAmps_nil,
      List.append_nil]
    simp only [h__getAmplitudes]
    rw [signChangeI_const x t ht]
    simp only [List.map_nil, List.nil_append, List.length_map, List.length_cons]
    rw [show t.length + 1 - 1 = t.length from by omega]
    rw [show (List.filter (fun c => !((List.map some (x :: t)).getD c.1 none).isNone)
        (List.zip [0] [t.length])) = [((0 : ℕ), t.length)] from rfl]
    simp only [List.foldl_cons, List.foldl_nil]
    show fillRange (chunkVal (List.map some (x :: t)) (0, t.length)) 0 t.length
        (List.replicate (t.length + 1) none)
      = List.replicate (t.length + 1) (some (if 0 < x then qmax (x :: t) else qmin (x :: t)))
    rw [chunkVal_whole]
    show fillFrom (some (if 0 < x then qmax (x :: t) else qmin (x :: t))) 0 t.length 0
        (List.replicate (t.length + 1) none)
      = List.replicate (t.length + 1) (some (if 0 < x then qmax (x :: t) else qmin (x :: t)))
    exact fillFrom_replicate_full _ 0 t.length (t.length + 1) 0 (le_refl 0) (by omega)
  | cons y ys =>
    have hy : npSign y ≠ npSign x := hB y ys rfl
    simp only [h__getAmplitudes]
    rw [signChangeI_decomp x t y ys ht hy]
    have hlenW : (List.map some ((x :: t) ++ (y :: ys))).length
        = (t.length + 1) + (ys.length + 1) := by
      simp only [List.length_map, List.length_append, List.length_cons]
    have hlenB : (List.map some (y :: ys)).length = ys.length + 1 := by
      simp only [List.length_map, List.length_cons]
    rw [hlenW, hlenB]
    rw [show (t.length + 1) + (ys.length + 1) - 1 = (t.length + 1) + ys.length from by omega,
      show ys.length + 1 - 1 = ys.length from by omega]
    rw [zip_chunks_shift t.length (signChangeI (List.map some (y :: ys))) ys.length]
    rw [List.filter_cons]
    rw [if_pos (show (!((List.map some ((x :: t) ++ (y :: ys))).getD
        ((0 : ℕ), t.length).1 none).isNone) = true from rfl)]
    rw [List.filter_map]
    have hkcong : List.filter
        ((fun c => !((List.map some ((x :: t) ++ (y :: ys))).getD c.1 none).isNone)
          ∘ (fun c => ((t.length + 1) + c.1, (t.length + 1) + c.2)))
        ((0 :: (signChangeI (List.map some (y :: ys))).map (· + 1)).zip
          ((signChangeI (List.map some (y :: ys))) ++ [ys.length]))
        = List.filter (fun c => !((List.map some (y :: ys)).getD c.1 none).isNone)
          ((0 :: (signChangeI (List.map some (y :: ys))).map (· + 1)).zip
            ((signChangeI (List.map some (y :: ys))) ++ [ys.length])) := by
      apply List.filter_congr
      intro c _
      show (!((List.map some ((x :: t) ++ (y :: ys))).getD ((t.length + 1) + c.1) none).isNone)
          = (!((List.map some (y :: ys)).getD c.1 none).isNone)
      rw [show (t.length + 1) + c.1 = (x :: t).length + c.1 from by
          simp only [List.length_cons],
        getD_map_some_append_right]
    rw [hkcong]
    rw [List.foldl_cons]
    have hinit : fillRange (chunkVal (List.map some ((x :: t) ++ (y :: ys))) (0, t.length)) 0
        t.length (List.replicate ((t.length + 1) + (ys.length + 1)) none)
        = List.replicate (t.length + 1) (some (if 0 < x then qmax (x :: t) else qmin (x :: t)))
          ++ List.replicate (ys.length + 1) none := by
      rw [chunkVal_head x t (y :: ys), List.replicate_add, fillRange, fillFrom_append]
      rw [show (0 + (List.replicate (t.length + 1) (none : Option ℚ)).length) = t.length + 1
          from by simp]
      rw [fillFrom_replicate_full _ 0 t.length (t.length + 1) 0 (le_refl 0) (by omega)]
      rw [fillFrom_of_gt _ _ _ _ _ (by omega)]
    rw [show fillRange (chunkVal (List.map some ((x :: t) ++ (y :: ys))) (0, t.length))
        ((0 : ℕ), t.length).1 ((0 : ℕ), t.length).2
        (List.replicate ((t.length + 1) + (ys.length + 1)) none)
        = List.replicate (t.length + 1) (some (if 0 < x then qmax (x :: t) else qmin (x :: t)))
          ++ List.replicate (ys.length + 1) none from hinit]
    rw [show List.map some ((x :: t) ++ (y :: ys))
        = List.map some (x :: t) ++ List.map some (y :: ys) from List.map_append some _ _]
    rw [foldl_fill_append (List.map some (x :: t)) (List.map some (y :: ys)) (x :: t)
      (y :: ys) (t.length + 1)
      (by rw [← List.map_append]) rfl (by simp only [List.length_cons])
      (by simp only [List.length_map, List.length_cons])
      (List.filter (fun c => !((List.map some (y :: ys)).getD c.1 none).isNone)
        ((0 :: (signChangeI (List.map some (y :: ys))).map (· + 1)).zip
          ((signChangeI (List.map some (y :: ys))) ++ [ys.length])))
      (List.replicate (t.length + 1) (some (if 0 < x then qmax (x :: t) else qmin (x :: t))))
      (List.replicate (ys.length + 1) none)
      (by simp only [List.length_replicate])]

theorem length_dropWhile_le2 {α : Type} (p : α → Bool) (l : List α) :
    (l.dropWhile p).length ≤ l.length := by
  have h := congrArg List.length (List.takeWhile_append_dropWhile p l)
  simp only [List.length_append] at h
  omega

theorem stairStepGo_fuel : ∀ (k1 k2 : ℕ) (l : List ℚ), l.length ≤ k1 → l.length ≤ k2 →
    stairStepGo k1 l = stairStepGo k2 l := by
  intro k1
  induction k1 with
  | zero =>
    intro k2 l h1 _
    have hnil : l = [] := List.length_eq_zero.mp (by omega)
    subst hnil
    cases k2 <;> rfl
  | succ k ih =>
    intro k2 l h1 h2
    cases l with
    | nil => cases k2 <;> rfl
    | cons x xs =>
      cases k2 with
      | zero => simp at h2
      | succ k2b =>
        simp only [stairStepGo]
        congr 1
        apply ih
        · exact le_trans (length_dropWhile_le2 _ xs) (by simpa using h1)
        · exact le_trans (length_dropWhile_le2 _ xs) (by simpa using h2)

theorem getAmps_eq_stairStep_aux : ∀ (k : ℕ) (V : List ℚ), V.length ≤ k →
    h__getAmplitudes (List.map some V) = List.map some (stairStepGo V.length V) := by
  intro k
  induction k with
  | zero =>
    intro V hV
    have hnil : V = [] := List.length_eq_zero.mp (by omega)
    subst hnil
    rfl
  | succ k2 ih =>
    intro V hV
    cases V with
    | nil => rfl
    | cons x xs =>
      have hxs : xs.length ≤ k2 := by simpa using hV
      have ht : ∀ a ∈ xs.takeWhile (fun y => decide (npSign y = npSign x)),
          npSign a = npSign x := by
        intro a ha
        have h2 := List.mem_takeWhile_imp ha
        simpa using h2
      have hB : ∀ y ys, xs.dropWhile (fun y => decide (npSign y = npSign x)) = y :: ys →
          npSign y ≠ npSign x := by
        intro y ys h
        have h2 := dropWhile_head_false _ xs y ys h
        simpa using h2
      have hsplit : (x :: xs) = (x :: xs.takeWhile (fun y => decide (npSign y = npSign x)))
          ++ xs.dropWhile (fun y => decide (npSign y = npSign x)) := by
        rw [List.cons_append, List.takeWhile_append_dropWhile]
      have hlenB : (xs.dropWhile (fun y => decide (npSign y = npSign x))).length ≤ k2 :=
        le_trans (length_dropWhile_le2 _ xs) hxs
      calc h__getAmplitudes (List.map some (x :: xs))
          = h__getAmplitudes (List.map some
              ((x :: xs.takeWhile (fun y => decide (npSign y = npSign x)))
                ++ xs.dropWhile (fun y => decide (npSign y = npSign x)))) := by
            rw [← hsplit]
        _ = List.replicate ((xs.takeWhile (fun y => decide (npSign y = npSign x))).length + 1)
              (some (if 0 < x then qmax (x :: xs.takeWhile (fun y => decide (npSign y = npSign x)))
                else qmin (x :: xs.takeWhile (fun y => decide (npSign y = npSign x)))))
            ++ h__getAmplitudes (List.map some
              (xs.dropWhile (fun y => decide (npSign y = npSign x)))) :=
            getAmps_decomp x _ _ ht hB
        _ = List.replicate ((xs.takeWhile (fun y => decide (npSign y = npSign x))).length + 1)
              (some (if 0 < x then qmax (x :: xs.takeWhile (fun y => decide (npSign y = npSign x)))
                else qmin (x :: xs.takeWhile (fun y => decide (npSign y = npSign x)))))
            ++ List.map some (stairStepGo
              (xs.dropWhile (fun y => decide (npSign y = npSign x))).length
              (xs.dropWhile (fun y => decide (npSign y = npSign x)))) := by
            rw [ih _ hlenB]
        _ = List.map some (List.replicate
              ((xs.takeWhile (fun y => decide (npSign y = npSign x))).length + 1)
              (if 0 < x then qmax (x :: xs.takeWhile (fun y => decide (npSign y = npSign x)))
                else qmin (x :: xs.takeWhile (fun y => decide (npSign y = npSign x))))
            ++ stairStepGo (xs.dropWhile (fun y => decide (npSign y = npSign x))).length
              (xs.dropWhile (fun y => decide (npSign y = npSign x)))) := by
            rw [List.map_append, List.map_replicate]
        _ = List.map some (stairStepGo (x :: xs).length (x :: xs)) := by
            congr 1
            simp only [List.length_cons, stairStepGo]
            congr 1
            exact stairStepGo_fuel _ _ _ le_rfl (length_dropWhile_le2 _ xs)

/-- C4: the stair-step amplitude extractor h__getAmplitudes agrees with the
specification: the index range is partitioned into maximal constant-sign runs
bounded by sign changes, and every index of a run receives the run maximum
when the run sign is positive and the run minimum otherwise.  The source
raises IndexError on an empty input, hence the nonemptiness hypothesis. -/
theorem c4_stairstep (V : List ℚ) (h : V ≠ []) :
    h__getAmplitudes (List.map some V) = List.map some (stairStepSpec V) := by
  rw [stairStepSpec]
  exact getAmps_eq_stairStep_aux V.length V le_rfl

/-- Witness for C4: the literal fixture of the spec,
[1, 2, 3, 2, 1, -1, -2, -1, 1, 2, 2, 5] -> [3, 3, 3, 3, 3, -2, -2, -2, 5, 5, 5, 5]. -/
theorem c4_witness :
    h__getAmplitudes (List.map some [1, 2, 3, 2, 1, -1, -2, -1, 1, 2, 2, 5])
      = List.map some [3, 3, 3, 3, 3, -2, -2, -2, 5, 5, 5, 5] := by
  have h := c4_stairstep [1, 2, 3, 2, 1, -1, -2, -1, 1, 2, 2, 5] (by decide)
  rw [h]
  decide
